import Mathlib

set_option maxHeartbeats 1000000

/-
Verification development for core/platform/auth/gae_auth_services.py.

The service layer itself (lookups, associate, associate-multi, deletion
marking, cookie clearing) is translated directly from the Python source.
The two datastore model classes it manipulates (UserIdentifiersModel keyed
by auth ID, UserAuthDetailsModel keyed by user ID) live outside the file
under verification, so their storage primitives are modelled from the
specification: a per-key get that treats tombstoned (deleted) records as
absent, a raw by-key read for the auth-ID direction that tolerates
tombstones, a reverse query on the user-ID field, and batched multi-gets
preserving input order.  Datastore tables are embedded as lists of records;
a put is an upsert on the record's key.  Create/update timestamps are
storage-layer metadata (refreshed by the storage client on every write, per
the spec's external-interface section) and carry no association state, so
they are omitted from the embedded record state.
-/

/-- Record of the table keyed by auth ID (the model's entity id).
`user_id` is the cross-reference to the internal user; `deleted` is the
tombstone flag. -/
structure UserIdentifiersModel where
  id : String
  user_id : String
  deleted : Bool
  deriving Repr, DecidableEq

/-- Record of the table keyed by user ID (the model's entity id).
`gae_id` is the nullable cross-reference to the auth ID; `parent_user_id`
stands for the further fields other services store on this model (the
source comments name `parent_user_id` explicitly); `deleted` is the
tombstone flag. -/
structure UserAuthDetailsModel where
  id : String
  gae_id : Option String
  parent_user_id : Option String
  deleted : Bool
  deriving Repr, DecidableEq

/-- The association store: the two datastore tables, embedded as lists of
records. -/
structure AuthState where
  userIdentifiers : List UserIdentifiersModel
  userAuthDetails : List UserAuthDetailsModel
  deriving Repr, DecidableEq

/-- Modelled from the spec: key-value storage per-key read, returning the
first record whose key equals `k`. -/
def lookupByKey (key : α → String) : List α → String → Option α
  | [], _ => none
  | r :: rest, k => if key r = k then some r else lookupByKey key rest k

/-- Modelled from the spec: key-value storage per-key put (upsert): the
first record carrying the same key is replaced in place, otherwise the
record is appended. -/
def putByKey (key : α → String) : List α → α → List α
  | [], m => [m]
  | r :: rest, m => if key r = key m then m :: rest else r :: putByKey key rest m

/-- Modelled from the spec: `UserIdentifiersModel.get(id, strict=False)` —
per-key get of the base storage model, treating tombstoned records as
absent. -/
def UserIdentifiersModel.get (l : List UserIdentifiersModel) (entity_id : String) :
    Option UserIdentifiersModel :=
  match lookupByKey UserIdentifiersModel.id l entity_id with
  | none => none
  | some m => if m.deleted then none else some m

/-- Modelled from the spec: `UserIdentifiersModel.get_by_gae_id(auth_id)` —
a raw by-key read of the auth-ID table.  The spec requires this direction
to tolerate tombstoned records ("lookups here are explicitly allowed to
return deleted-but-present mappings"), so no deletion filter is applied. -/
def UserIdentifiersModel.get_by_gae_id (l : List UserIdentifiersModel) (gae_id : String) :
    Option UserIdentifiersModel :=
  lookupByKey UserIdentifiersModel.id l gae_id

/-- Modelled from the spec: `UserIdentifiersModel.get_by_user_id(user_id)` —
the reverse query on the `user_id` field, returning the first record whose
cross-reference equals the given user ID (no deletion filter: the query
runs over the raw table). -/
def UserIdentifiersModel.get_by_user_id (l : List UserIdentifiersModel) (user_id : String) :
    Option UserIdentifiersModel :=
  l.find? fun r => r.user_id == user_id

/-- Modelled from the spec: `UserIdentifiersModel.get_multi(ids,
include_deleted=...)` — batched per-key get preserving input order, filling
`none` per missing element; tombstoned records are returned only when
`include_deleted` is set. -/
def UserIdentifiersModel.get_multi (l : List UserIdentifiersModel) (ids : List String)
    (include_deleted : Bool) : List (Option UserIdentifiersModel) :=
  ids.map fun entity_id =>
    match lookupByKey UserIdentifiersModel.id l entity_id with
    | none => none
    | some m => if m.deleted && !include_deleted then none else some m

/-- Modelled from the spec: `UserAuthDetailsModel.get(user_id,
strict=False)` — per-key get of the base storage model, treating
tombstoned records as absent (the spec requires `lookup_auth_id` to return
absent after deletion). -/
def UserAuthDetailsModel.get (l : List UserAuthDetailsModel) (entity_id : String) :
    Option UserAuthDetailsModel :=
  match lookupByKey UserAuthDetailsModel.id l entity_id with
  | none => none
  | some m => if m.deleted then none else some m

/-- Modelled from the spec: `UserAuthDetailsModel.get_multi(user_ids)` —
batched per-key get preserving input order; tombstoned records are treated
as absent (the source passes no `include_deleted` flag here). -/
def UserAuthDetailsModel.get_multi (l : List UserAuthDetailsModel) (ids : List String) :
    List (Option UserAuthDetailsModel) :=
  ids.map (UserAuthDetailsModel.get l)

/-- Errors raised by the service layer.  The Python source raises plain
`Exception`s with formatted messages; the constructors record which check
fired and the data the message interpolates: the colliding key together
with its existing association (for the single associate), the full list of
collisions found by the failing check (for the multi associate), and the
`ValueError` produced by unpacking `zip(*pairs)` when the batch is
empty. -/
inductive AuthError where
  | authIdAlready (auth_id user_id_collision : String)
  | userIdAlready (user_id auth_id_collision : String)
  | multiAuthIdAlready (collisions : List (String × String))
  | multiUserIdAlready (collisions : List (String × String))
  | valueError
  deriving Repr, DecidableEq

/-- `get_auth_id_from_user_id`: reads the user-ID table (tombstones are
absent) and returns the record's nullable `gae_id`. -/
def get_auth_id_from_user_id (s : AuthState) (user_id : String) : Option String :=
  match UserAuthDetailsModel.get s.userAuthDetails user_id with
  | none => none
  | some assoc_by_user_id_model => assoc_by_user_id_model.gae_id

/-- `get_multi_auth_ids_from_user_ids`: batched variant of
`get_auth_id_from_user_id`, one output per input in order. -/
def get_multi_auth_ids_from_user_ids (s : AuthState) (user_ids : List String) :
    List (Option String) :=
  (UserAuthDetailsModel.get_multi s.userAuthDetails user_ids).map fun model =>
    match model with
    | none => none
    | some model => model.gae_id

/-- `get_user_id_from_auth_id`: reads the auth-ID table through the raw
`get_by_gae_id` accessor (tombstones are readable) and returns the
record's `user_id`. -/
def get_user_id_from_auth_id (s : AuthState) (auth_id : String) : Option String :=
  match UserIdentifiersModel.get_by_gae_id s.userIdentifiers auth_id with
  | none => none
  | some assoc_by_auth_id_model => some assoc_by_auth_id_model.user_id

/-- `get_multi_user_ids_from_auth_ids`: batched variant of
`get_user_id_from_auth_id`; the source passes `include_deleted=True`. -/
def get_multi_user_ids_from_auth_ids (s : AuthState) (auth_ids : List String) :
    List (Option String) :=
  (UserIdentifiersModel.get_multi s.userIdentifiers auth_ids true).map fun m =>
    match m with
    | none => none
    | some m => some m.user_id

/-- `mark_user_for_deletion`: tombstones the user-ID record if present,
then locates the auth-ID record — through the tombstoned record's
`gae_id` when the user-ID record existed, otherwise by the reverse query
on the user ID — and tombstones it if found.  When the user-ID record
exists but its `gae_id` is null there is no auth-ID key to read, so no
auth-ID record is found (the storage get is keyed on strings; the spec
only asks to tombstone "the AuthIdRecord sharing its auth_id (if
present)"). -/
def mark_user_for_deletion (s : AuthState) (user_id : String) : AuthState :=
  let assoc_by_user_id_model := UserAuthDetailsModel.get s.userAuthDetails user_id
  let s1 : AuthState :=
    match assoc_by_user_id_model with
    | some m =>
      ⟨s.userIdentifiers,
       putByKey UserAuthDetailsModel.id s.userAuthDetails { m with deleted := true }⟩
    | none => s
  let assoc_by_auth_id_model : Option UserIdentifiersModel :=
    match assoc_by_user_id_model with
    | none => UserIdentifiersModel.get_by_user_id s1.userIdentifiers user_id
    | some m =>
      match m.gae_id with
      | some gae_id => UserIdentifiersModel.get s1.userIdentifiers gae_id
      | none => none
  match assoc_by_auth_id_model with
  | some r =>
    ⟨putByKey UserIdentifiersModel.id s1.userIdentifiers { r with deleted := true },
     s1.userAuthDetails⟩
  | none => s1

/-- The auth-ID record that `mark_user_for_deletion` will tombstone,
expressed over the pre-state (the user-ID-table put that precedes this
read does not touch the auth-ID table). -/
def tombstone_target (s : AuthState) (user_id : String) : Option UserIdentifiersModel :=
  match UserAuthDetailsModel.get s.userAuthDetails user_id with
  | none => UserIdentifiersModel.get_by_user_id s.userIdentifiers user_id
  | some m =>
    match m.gae_id with
    | some gae_id => UserIdentifiersModel.get s.userIdentifiers gae_id
    | none => none

/-- `associate_auth_id_with_user_id`: checks the auth-ID direction first,
then the user-ID direction, raising on either collision; otherwise writes
a fresh auth-ID record unconditionally and a fresh user-ID record exactly
when no user-ID record exists or its cross-reference is null. -/
def associate_auth_id_with_user_id (s : AuthState) (auth_id_user_id_pair : String × String) :
    Except AuthError AuthState :=
  let auth_id := auth_id_user_id_pair.1
  let user_id := auth_id_user_id_pair.2
  match get_user_id_from_auth_id s auth_id with
  | some user_id_collision => .error (.authIdAlready auth_id user_id_collision)
  | none =>
    match get_auth_id_from_user_id s user_id with
    | some auth_id_collision => .error (.userIdAlready user_id auth_id_collision)
    | none =>
      let s1 : AuthState :=
        ⟨putByKey UserIdentifiersModel.id s.userIdentifiers ⟨auth_id, user_id, false⟩,
         s.userAuthDetails⟩
      let assoc_by_user_id_model := UserAuthDetailsModel.get s1.userAuthDetails user_id
      if assoc_by_user_id_model.elim true (fun m => m.gae_id.isNone) then
        .ok ⟨s1.userIdentifiers,
             putByKey UserAuthDetailsModel.id s1.userAuthDetails
               ⟨user_id, some auth_id, none, false⟩⟩
      else
        .ok s1

/-- The `(key, existing value)` pairs the multi-associate error message
interpolates: inputs zipped with their collision lookups, keeping the hits
in input order. -/
def collision_pairs (keys : List String) (vals : List (Option String)) :
    List (String × String) :=
  (keys.zip vals).filterMap fun kv =>
    match kv.2 with
    | some v => some (kv.1, v)
    | none => none

/-- `associate_multi_auth_ids_with_user_ids`: unpacks the batch (an empty
batch makes `zip(*pairs)` unpacking raise `ValueError`), checks every pair
against the auth-ID direction and raises listing all hits, then checks
every pair against the user-ID direction and raises listing all hits, and
only then writes all auth-ID records in bulk followed by the subset of
user-ID records lacking a cross-reference. -/
def associate_multi_auth_ids_with_user_ids (s : AuthState)
    (auth_id_user_id_pairs : List (String × String)) : Except AuthError AuthState :=
  if auth_id_user_id_pairs.isEmpty then
    .error .valueError
  else
    let auth_ids := auth_id_user_id_pairs.map Prod.fst
    let user_ids := auth_id_user_id_pairs.map Prod.snd
    let user_id_collisions := get_multi_user_ids_from_auth_ids s auth_ids
    if user_id_collisions.any Option.isSome then
      .error (.multiAuthIdAlready (collision_pairs auth_ids user_id_collisions))
    else
      let auth_id_collisions := get_multi_auth_ids_from_user_ids s user_ids
      if auth_id_collisions.any Option.isSome then
        .error (.multiUserIdAlready (collision_pairs user_ids auth_id_collisions))
      else
        let assoc_by_auth_id_models :=
          auth_id_user_id_pairs.map fun p => UserIdentifiersModel.mk p.1 p.2 false
        let s1 : AuthState :=
          ⟨assoc_by_auth_id_models.foldl (putByKey UserIdentifiersModel.id) s.userIdentifiers,
           s.userAuthDetails⟩
        let assoc_by_user_id_models :=
          (auth_id_user_id_pairs.zip
              (UserAuthDetailsModel.get_multi s1.userAuthDetails user_ids)).filterMap
            fun pm =>
              if pm.2.elim true (fun m => m.gae_id.isNone) then
                some (UserAuthDetailsModel.mk pm.1.2 (some pm.1.1) none false)
              else none
        if assoc_by_user_id_models.isEmpty then
          .ok s1
        else
          .ok ⟨s1.userIdentifiers,
               assoc_by_user_id_models.foldl (putByKey UserAuthDetailsModel.id)
                 s1.userAuthDetails⟩

/-- Abbreviated month names as produced by strftime `%b` in the C
locale. -/
def monthNames : List String :=
  ["Jan", "Feb", "Mar", "Apr", "May", "Jun", "Jul", "Aug", "Sep", "Oct", "Nov", "Dec"]

/-- Abbreviated weekday names as produced by strftime `%a` in the C
locale, indexed with Sunday at zero. -/
def weekdayNames : List String :=
  ["Sun", "Mon", "Tue", "Wed", "Thu", "Fri", "Sat"]

/-- Proleptic-Gregorian civil date (year, month, day) of a day count since
1970-01-01, matching Python's datetime calendar. -/
def civilFromDays (z0 : Nat) : Nat × Nat × Nat :=
  let z := z0 + 719468
  let era := z / 146097
  let doe := z % 146097
  let yoe := (doe - doe / 1460 + doe / 36524 - doe / 146096) / 365
  let y := yoe + era * 400
  let doy := doe - (365 * yoe + yoe / 4 - yoe / 100)
  let mp := (5 * doy + 2) / 153
  let d := doy - (153 * mp + 2) / 5 + 1
  let m := if mp < 10 then mp + 3 else mp - 9
  (if m ≤ 2 then y + 1 else y, m, d)

/-- Two-digit zero-padded decimal, as strftime `%d`, `%H`, `%M`, `%S`
produce for their in-range values. -/
def pad2 (n : Nat) : String :=
  if n < 10 then "0" ++ toString n else toString n

/-- strftime over the pattern the source passes, applied to a UTC instant
given as seconds since 1970-01-01T00:00:00. -/
def strftimeCookieGMT (t : Nat) : String :=
  let days := t / 86400
  let sod := t % 86400
  let ymd := civilFromDays days
  (weekdayNames.getD ((days + 4) % 7) "") ++ ", " ++ pad2 ymd.2.2 ++ " " ++
    (monthNames.getD (ymd.2.1 - 1) "") ++ " " ++ toString ymd.1 ++ " " ++
    pad2 (sod / 3600) ++ ":" ++ pad2 (sod % 3600 / 60) ++ ":" ++ pad2 (sod % 60) ++ " GMT"

/-- The string `SimpleCookie.output()` yields after the `Set-Cookie: `
prefix is split off: the cookie name, the quoted empty value, and the
single `expires` attribute. -/
def cookie_output (name : String) (expires : String) : String :=
  name ++ "=\"\"; expires=" ++ expires

/-- `destroy_auth_session`: for each of the three fixed cookie names,
appends to the response headers a `Set-Cookie` directive that sets the
cookie to the empty value with an expiry one day (86400 seconds) before
the current UTC time.  The clock read `datetime.datetime.utcnow()` is
passed in as `now`, in seconds since 1970-01-01T00:00:00. -/
def destroy_auth_session (now : Nat) (headers : List (String × String)) :
    List (String × String) :=
  headers ++
    (["ACSID", "SACSID", "dev_appserver_login"].map fun cookie_name =>
      ("Set-Cookie", cookie_output cookie_name (strftimeCookieGMT (now - 86400))))

/-- A well-formed association store: each table holds at most one record
per key, and every live auth-ID record is backed by a live user-ID record
whose cross-reference points back at it (the spec's symmetry invariant for
non-deleted pairs). -/
def WellFormed (s : AuthState) : Prop :=
  (s.userIdentifiers.map UserIdentifiersModel.id).Nodup ∧
  (s.userAuthDetails.map UserAuthDetailsModel.id).Nodup ∧
  ∀ r ∈ s.userIdentifiers, r.deleted = false →
    ∃ m, lookupByKey UserAuthDetailsModel.id s.userAuthDetails r.user_id = some m ∧
      m.deleted = false ∧ m.gae_id = some r.id

/-- Reading back the key just written returns the written record. -/
theorem lookupByKey_putByKey_self (key : α → String) (l : List α) (x : α) :
    lookupByKey key (putByKey key l x) (key x) = some x := by
  induction l with
  | nil => simp [putByKey, lookupByKey]
  | cons r rest ih =>
    by_cases h : key r = key x
    · simp [putByKey, h, lookupByKey]
    · simp [putByKey, h, lookupByKey, ih]

/-- A put leaves reads at every other key unchanged. -/
theorem lookupByKey_putByKey_ne (key : α → String) (l : List α) (x : α) (k : String)
    (hk : k ≠ key x) : lookupByKey key (putByKey key l x) k = lookupByKey key l k := by
  induction l with
  | nil => simp [putByKey, lookupByKey, Ne.symm hk]
  | cons r rest ih =>
    by_cases h : key r = key x
    · have hrk : key r ≠ k := h ▸ Ne.symm hk
      simp [putByKey, h, lookupByKey, hrk, Ne.symm hk]
    · by_cases hr : key r = k
      · simp [putByKey, h, lookupByKey, hr, hk]
      · simp [putByKey, h, lookupByKey, hr, ih]

/-- Every member of a put result is the new record or an old member. -/
theorem mem_putByKey (key : α → String) (l : List α) (x y : α)
    (hy : y ∈ putByKey key l x) : y = x ∨ y ∈ l := by
  induction l with
  | nil => simpa [putByKey] using hy
  | cons r rest ih =>
    by_cases h : key r = key x
    · simp only [putByKey, if_pos h, List.mem_cons] at hy
      rcases hy with rfl | hy
      · exact Or.inl rfl
      · exact Or.inr (List.mem_cons_of_mem r hy)
    · simp only [putByKey, if_neg h, List.mem_cons] at hy
      rcases hy with rfl | hy
      · exact Or.inr (List.mem_cons_self y rest)
      · rcases ih hy with h1 | h1
        · exact Or.inl h1
        · exact Or.inr (List.mem_cons_of_mem r h1)

/-- A successful read returns a member carrying the requested key. -/
theorem lookupByKey_eq_some (key : α → String) (l : List α) (k : String) (m : α)
    (h : lookupByKey key l k = some m) : m ∈ l ∧ key m = k := by
  induction l with
  | nil => simp [lookupByKey] at h
  | cons r rest ih =>
    by_cases hr : key r = k
    · simp only [lookupByKey, if_pos hr, Option.some.injEq] at h
      exact ⟨h ▸ List.mem_cons_self r rest, h ▸ hr⟩
    · simp only [lookupByKey, if_neg hr] at h
      rcases ih h with ⟨h1, h2⟩
      exact ⟨List.mem_cons_of_mem r h1, h2⟩

/-- When keys are unique, reading a member's key returns that member. -/
theorem lookupByKey_of_nodup_mem (key : α → String) (l : List α) (x : α)
    (hnd : (l.map key).Nodup) (hx : x ∈ l) : lookupByKey key l (key x) = some x := by
  induction l with
  | nil => cases hx
  | cons r rest ih =>
    rcases List.mem_cons.mp hx with rfl | hx
    · simp [lookupByKey]
    · have hr : key r ≠ key x := by
        intro he
        exact (List.nodup_cons.mp hnd).1 (he ▸ List.mem_map_of_mem key hx)
      simp [lookupByKey, hr, ih (List.nodup_cons.mp hnd).2 hx]

/-- A put preserves uniqueness of keys. -/
theorem nodup_map_putByKey (key : α → String) (l : List α) (x : α)
    (hnd : (l.map key).Nodup) : ((putByKey key l x).map key).Nodup := by
  induction l with
  | nil => simp [putByKey]
  | cons r rest ih =>
    rcases List.nodup_cons.mp hnd with ⟨hr, hrest⟩
    by_cases h : key r = key x
    · simp only [putByKey, if_pos h, List.map_cons]
      exact List.nodup_cons.mpr ⟨h ▸ hr, hrest⟩
    · simp only [putByKey, if_neg h, List.map_cons]
      refine List.nodup_cons.mpr ⟨?_, ih hrest⟩
      intro hmem
      rcases List.mem_map.mp hmem with ⟨y, hy, hky⟩
      rcases mem_putByKey key rest x y hy with rfl | hy2
      · exact h hky.symm
      · exact hr (hky ▸ List.mem_map_of_mem key hy2)

/-- When keys are unique, a member of a put result that carries the new
record's key is the new record. -/
theorem eq_of_mem_putByKey_key_eq (key : α → String) (l : List α) (x y : α)
    (hnd : (l.map key).Nodup) (hy : y ∈ putByKey key l x) (hk : key y = key x) : y = x := by
  induction l with
  | nil => simpa [putByKey] using hy
  | cons r rest ih =>
    rcases List.nodup_cons.mp hnd with ⟨hr, hrest⟩
    by_cases h : key r = key x
    · simp only [putByKey, if_pos h, List.mem_cons] at hy
      rcases hy with rfl | hy
      · rfl
      · exact absurd (hk ▸ List.mem_map_of_mem key hy) (h ▸ hr)
    · simp only [putByKey, if_neg h, List.mem_cons] at hy
      rcases hy with rfl | hy
      · exact absurd hk h
      · exact ih hrest hy

/-- When keys are unique, putting a record that is already a member leaves
the table unchanged. -/
theorem putByKey_eq_self_of_mem (key : α → String) (l : List α) (x : α)
    (hnd : (l.map key).Nodup) (hx : x ∈ l) : putByKey key l x = l := by
  induction l with
  | nil => cases hx
  | cons r rest ih =>
    rcases List.nodup_cons.mp hnd with ⟨hr, hrest⟩
    rcases List.mem_cons.mp hx with rfl | hx
    · simp [putByKey]
    · have h : key r ≠ key x := by
        intro he
        exact hr (he ▸ List.mem_map_of_mem key hx)
      simp [putByKey, h, ih hrest hx]

/-- Inverting a successful tombstone-filtering get on the user-ID table. -/
theorem userAuthDetails_get_eq_some (l : List UserAuthDetailsModel) (k : String)
    (m : UserAuthDetailsModel) (h : UserAuthDetailsModel.get l k = some m) :
    lookupByKey UserAuthDetailsModel.id l k = some m ∧ m.deleted = false := by
  unfold UserAuthDetailsModel.get at h
  cases hl : lookupByKey UserAuthDetailsModel.id l k with
  | none => rw [hl] at h; cases h
  | some m0 =>
    simp only [hl] at h
    by_cases hd : m0.deleted = true
    · rw [if_pos hd] at h; cases h
    · rw [if_neg hd] at h
      cases h
      simp only [Bool.not_eq_true] at hd
      exact ⟨rfl, hd⟩

/-- Inverting a successful tombstone-filtering get on the auth-ID table. -/
theorem userIdentifiers_get_eq_some (l : List UserIdentifiersModel) (k : String)
    (m : UserIdentifiersModel) (h : UserIdentifiersModel.get l k = some m) :
    lookupByKey UserIdentifiersModel.id l k = some m ∧ m.deleted = false := by
  unfold UserIdentifiersModel.get at h
  cases hl : lookupByKey UserIdentifiersModel.id l k with
  | none => rw [hl] at h; cases h
  | some m0 =>
    simp only [hl] at h
    by_cases hd : m0.deleted = true
    · rw [if_pos hd] at h; cases h
    · rw [if_neg hd] at h
      cases h
      simp only [Bool.not_eq_true] at hd
      exact ⟨rfl, hd⟩

/-- Inverting a successful reverse query on the auth-ID table. -/
theorem UserIdentifiersModel.get_by_user_id_eq_some (l : List UserIdentifiersModel)
    (u : String) (r : UserIdentifiersModel)
    (h : UserIdentifiersModel.get_by_user_id l u = some r) : r ∈ l ∧ r.user_id = u := by
  unfold UserIdentifiersModel.get_by_user_id at h
  refine ⟨List.mem_of_find?_eq_some h, ?_⟩
  have := List.find?_some h
  simpa using this

/-- The user-ID table after `mark_user_for_deletion`: the record found by
the filtered get is tombstoned in place; otherwise the table is
unchanged. -/
theorem mark_userAuthDetails_eq (s : AuthState) (u : String) :
    (mark_user_for_deletion s u).userAuthDetails =
      match UserAuthDetailsModel.get s.userAuthDetails u with
      | some m => putByKey UserAuthDetailsModel.id s.userAuthDetails { m with deleted := true }
      | none => s.userAuthDetails := by
  unfold mark_user_for_deletion
  cases hm : UserAuthDetailsModel.get s.userAuthDetails u with
  | none =>
    cases hq : UserIdentifiersModel.get_by_user_id s.userIdentifiers u <;> simp [hq]
  | some m =>
    cases hg : m.gae_id with
    | none => simp [hg]
    | some g =>
      cases hr : UserIdentifiersModel.get s.userIdentifiers g <;> simp [hg, hr]

/-- The auth-ID table after `mark_user_for_deletion`: the record the
deletion locates (`tombstone_target`) is tombstoned in place; otherwise
the table is unchanged. -/
theorem mark_userIdentifiers_eq (s : AuthState) (u : String) :
    (mark_user_for_deletion s u).userIdentifiers =
      match tombstone_target s u with
      | some r => putByKey UserIdentifiersModel.id s.userIdentifiers { r with deleted := true }
      | none => s.userIdentifiers := by
  unfold mark_user_for_deletion tombstone_target
  cases hm : UserAuthDetailsModel.get s.userAuthDetails u with
  | none =>
    cases hq : UserIdentifiersModel.get_by_user_id s.userIdentifiers u <;> simp [hq]
  | some m =>
    cases hg : m.gae_id with
    | none => simp [hg]
    | some g =>
      cases hr : UserIdentifiersModel.get s.userIdentifiers g <;> simp [hg, hr]

/-- After `mark_user_for_deletion`, the filtered get on the user-ID table
no longer sees a record for the deleted user. -/
theorem mark_get_userAuthDetails_none (s : AuthState) (u : String) :
    UserAuthDetailsModel.get (mark_user_for_deletion s u).userAuthDetails u = none := by
  rw [mark_userAuthDetails_eq]
  cases hm : UserAuthDetailsModel.get s.userAuthDetails u with
  | none => exact hm
  | some m =>
    rcases userAuthDetails_get_eq_some _ _ _ hm with ⟨hl, _⟩
    rcases lookupByKey_eq_some _ _ _ _ hl with ⟨_, hid⟩
    unfold UserAuthDetailsModel.get
    rw [show u = UserAuthDetailsModel.id { m with deleted := true } from hid.symm,
      lookupByKey_putByKey_self]
    simp

/-- A fresh associate call writes exactly the fresh auth-ID record and the
fresh user-ID record. -/
theorem associate_fresh (s : AuthState) (a u : String)
    (ha : get_user_id_from_auth_id s a = none)
    (hu : get_auth_id_from_user_id s u = none) :
    associate_auth_id_with_user_id s (a, u) =
      .ok ⟨putByKey UserIdentifiersModel.id s.userIdentifiers ⟨a, u, false⟩,
           putByKey UserAuthDetailsModel.id s.userAuthDetails ⟨u, some a, none, false⟩⟩ := by
  unfold associate_auth_id_with_user_id
  simp only [ha, hu]
  cases hm : UserAuthDetailsModel.get s.userAuthDetails u with
  | none => simp [hm]
  | some m =>
    have hg : m.gae_id = none := by
      unfold get_auth_id_from_user_id at hu
      rw [hm] at hu
      exact hu
    simp [hm, hg]

/-- The batched user-to-auth lookup is the single lookup applied
pointwise, in input order. -/
theorem get_multi_auth_ids_eq_map (s : AuthState) (user_ids : List String) :
    get_multi_auth_ids_from_user_ids s user_ids =
      user_ids.map (get_auth_id_from_user_id s) := by
  unfold get_multi_auth_ids_from_user_ids UserAuthDetailsModel.get_multi
  rw [List.map_map]
  rfl

/-- The batched auth-to-user lookup is the single lookup applied
pointwise, in input order (both tolerate tombstones: the multi variant by
`include_deleted`, the single one by reading raw). -/
theorem get_multi_user_ids_eq_map (s : AuthState) (auth_ids : List String) :
    get_multi_user_ids_from_auth_ids s auth_ids =
      auth_ids.map (get_user_id_from_auth_id s) := by
  unfold get_multi_user_ids_from_auth_ids UserIdentifiersModel.get_multi
  rw [List.map_map]
  refine List.map_congr_left ?_
  intro a _
  unfold get_user_id_from_auth_id UserIdentifiersModel.get_by_gae_id
  cases hl : lookupByKey UserIdentifiersModel.id s.userIdentifiers a <;> simp [hl]

/-- A mapped collision scan over keys that are all free reports no hit. -/
theorem any_isSome_map_eq_false (f : String → Option String) (ids : List String)
    (h : ∀ a ∈ ids, f a = none) : ((ids.map f).any Option.isSome) = false := by
  induction ids with
  | nil => rfl
  | cons a rest ih =>
    simp only [List.map_cons, List.any_cons, h a (List.mem_cons_self a rest),
      Option.isSome_none, Bool.false_or]
    exact ih fun b hb => h b (List.mem_cons_of_mem a hb)

/-- Bind of a successful Except computation. -/
theorem except_bind_ok (a : α) (g : α → Except ε β) :
    (Except.ok a >>= g : Except ε β) = g a := rfl

/-- A user whose association lookup is absent satisfies the write
condition of associate: no record, or a record with null
cross-reference. -/
theorem elim_isNone_of_get_auth_none (s : AuthState) (u : String)
    (h : get_auth_id_from_user_id s u = none) :
    ((UserAuthDetailsModel.get s.userAuthDetails u).elim true
      (fun m => m.gae_id.isNone)) = true := by
  unfold get_auth_id_from_user_id at h
  cases hm : UserAuthDetailsModel.get s.userAuthDetails u with
  | none => rfl
  | some m =>
    rw [hm] at h
    simp at h
    simp [h]

/-- Sequential fresh associates over pairwise-disjoint pairs that are free
in the initial state write exactly the fresh records of every pair, in
order. -/
theorem foldlM_associate_fresh (pairs : List (String × String)) (s : AuthState)
    (hA : (pairs.map Prod.fst).Nodup) (hU : (pairs.map Prod.snd).Nodup)
    (hfresh : ∀ p ∈ pairs, get_user_id_from_auth_id s p.1 = none ∧
      get_auth_id_from_user_id s p.2 = none) :
    List.foldlM associate_auth_id_with_user_id s pairs =
      Except.ok
        ⟨(pairs.map fun p => UserIdentifiersModel.mk p.1 p.2 false).foldl
            (putByKey UserIdentifiersModel.id) s.userIdentifiers,
         (pairs.map fun p => UserAuthDetailsModel.mk p.2 (some p.1) none false).foldl
            (putByKey UserAuthDetailsModel.id) s.userAuthDetails⟩ := by
  induction pairs generalizing s with
  | nil => rfl
  | cons p rest ih =>
    rcases hfresh p (List.mem_cons_self p rest) with ⟨hp1, hp2⟩
    have hstep := associate_fresh s p.1 p.2 hp1 hp2
    have hpair : ((p.1, p.2) : String × String) = p := rfl
    rw [hpair] at hstep
    rw [List.foldlM_cons, hstep, except_bind_ok]
    have hA1 : p.1 ∉ rest.map Prod.fst := (List.nodup_cons.mp (by simpa using hA)).1
    have hU1 : p.2 ∉ rest.map Prod.snd := (List.nodup_cons.mp (by simpa using hU)).1
    have hrest := ih
      ⟨putByKey UserIdentifiersModel.id s.userIdentifiers ⟨p.1, p.2, false⟩,
       putByKey UserAuthDetailsModel.id s.userAuthDetails ⟨p.2, some p.1, none, false⟩⟩
      (List.nodup_cons.mp (by simpa using hA)).2
      (List.nodup_cons.mp (by simpa using hU)).2
      ?_
    · rw [hrest]
      simp only [List.map_cons, List.foldl_cons]
    · intro q hq
      have hq1 : q.1 ≠ p.1 := by
        intro he
        exact hA1 (he ▸ List.mem_map_of_mem Prod.fst hq)
      have hq2 : q.2 ≠ p.2 := by
        intro he
        exact hU1 (he ▸ List.mem_map_of_mem Prod.snd hq)
      constructor
      · have hf := (hfresh q (List.mem_cons_of_mem p hq)).1
        unfold get_user_id_from_auth_id UserIdentifiersModel.get_by_gae_id at hf ⊢
        rw [show AuthState.userIdentifiers
            ⟨putByKey UserIdentifiersModel.id s.userIdentifiers ⟨p.1, p.2, false⟩,
             putByKey UserAuthDetailsModel.id s.userAuthDetails
               ⟨p.2, some p.1, none, false⟩⟩ =
            putByKey UserIdentifiersModel.id s.userIdentifiers ⟨p.1, p.2, false⟩ from rfl]
        rw [lookupByKey_putByKey_ne UserIdentifiersModel.id s.userIdentifiers
          ⟨p.1, p.2, false⟩ q.1 hq1]
        exact hf
      · have hf := (hfresh q (List.mem_cons_of_mem p hq)).2
        unfold get_auth_id_from_user_id UserAuthDetailsModel.get at hf ⊢
        rw [show AuthState.userAuthDetails
            ⟨putByKey UserIdentifiersModel.id s.userIdentifiers ⟨p.1, p.2, false⟩,
             putByKey UserAuthDetailsModel.id s.userAuthDetails
               ⟨p.2, some p.1, none, false⟩⟩ =
            putByKey UserAuthDetailsModel.id s.userAuthDetails
              ⟨p.2, some p.1, none, false⟩ from rfl]
        rw [lookupByKey_putByKey_ne UserAuthDetailsModel.id s.userAuthDetails
          ⟨p.2, some p.1, none, false⟩ q.2 hq2]
        exact hf

/-- Zipping free pairs with their user-ID-table reads and filtering on the
write condition keeps every pair, producing the fresh records in order. -/
theorem filterMap_zip_fresh (pairs : List (String × String))
    (d : List UserAuthDetailsModel)
    (h : ∀ p ∈ pairs, ((UserAuthDetailsModel.get d p.2).elim true
      (fun m => m.gae_id.isNone)) = true) :
    ((pairs.zip (UserAuthDetailsModel.get_multi d (pairs.map Prod.snd))).filterMap
        fun pm =>
          if pm.2.elim true (fun m => m.gae_id.isNone) then
            some (UserAuthDetailsModel.mk pm.1.2 (some pm.1.1) none false)
          else none)
      = pairs.map fun p => UserAuthDetailsModel.mk p.2 (some p.1) none false := by
  induction pairs with
  | nil => rfl
  | cons p rest ih =>
    have hp := h p (List.mem_cons_self p rest)
    have hrest := ih fun q hq => h q (List.mem_cons_of_mem p hq)
    unfold UserAuthDetailsModel.get_multi at hrest ⊢
    simp only [List.map_cons, List.zip_cons_cons, List.filterMap_cons, hp, if_true]
    rw [hrest]

/-- A fresh batch associate writes exactly the fresh records of every
pair, in order: all auth-ID records first, then all user-ID records. -/
theorem associate_multi_fresh (pairs : List (String × String)) (s : AuthState)
    (hne : pairs ≠ [])
    (hfresh : ∀ p ∈ pairs, get_user_id_from_auth_id s p.1 = none ∧
      get_auth_id_from_user_id s p.2 = none) :
    associate_multi_auth_ids_with_user_ids s pairs =
      Except.ok
        ⟨(pairs.map fun p => UserIdentifiersModel.mk p.1 p.2 false).foldl
            (putByKey UserIdentifiersModel.id) s.userIdentifiers,
         (pairs.map fun p => UserAuthDetailsModel.mk p.2 (some p.1) none false).foldl
            (putByKey UserAuthDetailsModel.id) s.userAuthDetails⟩ := by
  have hempty : pairs.isEmpty = false := by
    cases pairs with
    | nil => exact absurd rfl hne
    | cons a l => rfl
  have hchk1 : ((get_multi_user_ids_from_auth_ids s (pairs.map Prod.fst)).any
      Option.isSome) = false := by
    rw [get_multi_user_ids_eq_map]
    refine any_isSome_map_eq_false _ _ ?_
    intro a ha
    rcases List.mem_map.mp ha with ⟨p, hp, rfl⟩
    exact (hfresh p hp).1
  have hchk2 : ((get_multi_auth_ids_from_user_ids s (pairs.map Prod.snd)).any
      Option.isSome) = false := by
    rw [get_multi_auth_ids_eq_map]
    refine any_isSome_map_eq_false _ _ ?_
    intro a ha
    rcases List.mem_map.mp ha with ⟨p, hp, rfl⟩
    exact (hfresh p hp).2
  have hmodels := filterMap_zip_fresh pairs s.userAuthDetails
    fun p hp => elim_isNone_of_get_auth_none s p.2 (hfresh p hp).2
  have hmodels_ne : ((pairs.map fun p =>
      UserAuthDetailsModel.mk p.2 (some p.1) none false).isEmpty) = false := by
    cases pairs with
    | nil => exact absurd rfl hne
    | cons a l => rfl
  unfold associate_multi_auth_ids_with_user_ids
  simp only [hempty, Bool.false_eq_true, if_false, hchk1, hchk2, hmodels, hmodels_ne]

/-- When the first collision scan hits, the batch associate raises listing
exactly the auth-ID-side collisions. -/
theorem associate_multi_first_check (s : AuthState) (pairs : List (String × String))
    (h : ((get_multi_user_ids_from_auth_ids s (pairs.map Prod.fst)).any
      Option.isSome) = true) :
    associate_multi_auth_ids_with_user_ids s pairs =
      .error (.multiAuthIdAlready (collision_pairs (pairs.map Prod.fst)
        (get_multi_user_ids_from_auth_ids s (pairs.map Prod.fst)))) := by
  have hne : pairs ≠ [] := by
    intro he
    subst he
    simp [get_multi_user_ids_from_auth_ids, UserIdentifiersModel.get_multi] at h
  have hempty : pairs.isEmpty = false := by
    cases pairs with
    | nil => exact absurd rfl hne
    | cons a l => rfl
  unfold associate_multi_auth_ids_with_user_ids
  simp only [hempty, Bool.false_eq_true, if_false, h, if_true]

/-- When the first collision scan is clean but the second hits, the batch
associate raises listing exactly the user-ID-side collisions. -/
theorem associate_multi_second_check (s : AuthState) (pairs : List (String × String))
    (h1 : ((get_multi_user_ids_from_auth_ids s (pairs.map Prod.fst)).any
      Option.isSome) = false)
    (h2 : ((get_multi_auth_ids_from_user_ids s (pairs.map Prod.snd)).any
      Option.isSome) = true) :
    associate_multi_auth_ids_with_user_ids s pairs =
      .error (.multiUserIdAlready (collision_pairs (pairs.map Prod.snd)
        (get_multi_auth_ids_from_user_ids s (pairs.map Prod.snd)))) := by
  have hne : pairs ≠ [] := by
    intro he
    subst he
    simp [get_multi_auth_ids_from_user_ids, UserAuthDetailsModel.get_multi] at h2
  have hempty : pairs.isEmpty = false := by
    cases pairs with
    | nil => exact absurd rfl hne
    | cons a l => rfl
  unfold associate_multi_auth_ids_with_user_ids
  simp only [hempty, Bool.false_eq_true, if_false, h1, h2, if_true]

/-- Componentwise equality of association stores. -/
theorem AuthState.eq_of_parts (a b : AuthState)
    (h1 : a.userIdentifiers = b.userIdentifiers)
    (h2 : a.userAuthDetails = b.userAuthDetails) : a = b := by
  cases a
  cases b
  cases h1
  cases h2
  rfl

/-- The record the deletion locates is a member of the auth-ID table, and
either matched the reverse query on the user ID or was read back at its
own key. -/
theorem tombstone_target_spec (s : AuthState) (u : String) (r : UserIdentifiersModel)
    (h : tombstone_target s u = some r) :
    r ∈ s.userIdentifiers ∧
      (r.user_id = u ∨ lookupByKey UserIdentifiersModel.id s.userIdentifiers r.id = some r) := by
  unfold tombstone_target at h
  cases hm : UserAuthDetailsModel.get s.userAuthDetails u with
  | none =>
    simp only [hm] at h
    rcases UserIdentifiersModel.get_by_user_id_eq_some _ _ _ h with ⟨hmem, huid⟩
    exact ⟨hmem, Or.inl huid⟩
  | some m =>
    simp only [hm] at h
    cases hg : m.gae_id with
    | none => simp only [hg] at h; cases h
    | some g =>
      simp only [hg] at h
      rcases userIdentifiers_get_eq_some _ _ _ h with ⟨hl, hdel⟩
      rcases lookupByKey_eq_some _ _ _ _ hl with ⟨hmem, hid⟩
      refine ⟨hmem, Or.inr ?_⟩
      rw [hid]
      exact hl

/-- On a well-formed store, no live auth-ID record referencing the user
survives `mark_user_for_deletion`: the deletion finds it (through the
back-reference of the user-ID record the symmetry invariant provides) and
tombstones it. -/
theorem mark_kills_live_user_entries (s : AuthState) (u : String) (hwf : WellFormed s) :
    ∀ r ∈ (mark_user_for_deletion s u).userIdentifiers, r.user_id = u → r.deleted = true := by
  rcases hwf with ⟨hids, hdets, hsym⟩
  intro r hr hru
  by_contra hne
  have hdel : r.deleted = false := by
    cases hd : r.deleted
    · rfl
    · exact absurd hd hne
  rw [mark_userIdentifiers_eq] at hr
  have hrs : r ∈ s.userIdentifiers := by
    cases ht : tombstone_target s u with
    | none => rw [ht] at hr; exact hr
    | some r0 =>
      simp only [ht] at hr
      rcases mem_putByKey _ _ _ _ hr with rfl | hmem
      · simp at hdel
      · exact hmem
  obtain ⟨m, hm, hmdel, hmgae⟩ := hsym r hrs hdel
  have hget : UserAuthDetailsModel.get s.userAuthDetails u = some m := by
    unfold UserAuthDetailsModel.get
    rw [← hru, hm]
    simp [hmdel]
  have hlook : lookupByKey UserIdentifiersModel.id s.userIdentifiers r.id = some r :=
    lookupByKey_of_nodup_mem UserIdentifiersModel.id s.userIdentifiers r hids hrs
  have hidget : UserIdentifiersModel.get s.userIdentifiers r.id = some r := by
    unfold UserIdentifiersModel.get
    rw [hlook]
    simp [hdel]
  have htt : tombstone_target s u = some r := by
    unfold tombstone_target
    simp only [hget, hmgae]
    exact hidget
  simp only [htt] at hr
  have heq : r = { r with deleted := true } :=
    eq_of_mem_putByKey_key_eq UserIdentifiersModel.id s.userIdentifiers _ r hids hr rfl
  have : r.deleted = true := congrArg UserIdentifiersModel.deleted heq
  rw [hdel] at this
  cases this

/-- Deletion marking preserves uniqueness of auth-ID keys. -/
theorem mark_nodup_ids (s : AuthState) (u : String)
    (h : (s.userIdentifiers.map UserIdentifiersModel.id).Nodup) :
    (((mark_user_for_deletion s u).userIdentifiers).map UserIdentifiersModel.id).Nodup := by
  rw [mark_userIdentifiers_eq]
  cases ht : tombstone_target s u with
  | none => exact h
  | some r => exact nodup_map_putByKey _ _ _ h

/-- Re-tombstoning an already tombstoned record is the identity on the
record. -/
theorem tombstone_eta (r : UserIdentifiersModel) (h : r.deleted = true) :
    ({ r with deleted := true } : UserIdentifiersModel) = r := by
  cases r
  simp only at h
  simp [h]

/-- Reading back a just-written record at its key, stated for an arbitrary
spelling of the key. -/
theorem lookupByKey_putByKey_self_of (key : α → String) (l : List α) (x : α) (k : String)
    (hk : key x = k) : lookupByKey key (putByKey key l x) k = some x := by
  rw [← hk]
  exact lookupByKey_putByKey_self key l x

/-- Claim C1: for every auth_id and user_id not previously associated,
after a successful associate(auth_id, user_id), lookup_user_id(auth_id)
returns user_id and lookup_auth_id(user_id) returns auth_id. -/
theorem associate_then_lookup_roundtrip (s : AuthState) (a u : String)
    (ha : get_user_id_from_auth_id s a = none)
    (hu : get_auth_id_from_user_id s u = none) :
    ∃ s2, associate_auth_id_with_user_id s (a, u) = Except.ok s2 ∧
      get_user_id_from_auth_id s2 a = some u ∧
      get_auth_id_from_user_id s2 u = some a := by
  refine ⟨_, associate_fresh s a u ha hu, ?_, ?_⟩
  · unfold get_user_id_from_auth_id UserIdentifiersModel.get_by_gae_id
    rw [lookupByKey_putByKey_self_of UserIdentifiersModel.id s.userIdentifiers
      ⟨a, u, false⟩ a rfl]
  · unfold get_auth_id_from_user_id UserAuthDetailsModel.get
    rw [lookupByKey_putByKey_self_of UserAuthDetailsModel.id s.userAuthDetails
      ⟨u, some a, none, false⟩ u rfl]
    simp

/-- Witness for C1: a concrete fresh pair over the empty store. -/
theorem associate_then_lookup_roundtrip_witness :
    ∃ s2, associate_auth_id_with_user_id ⟨[], []⟩ ("a", "u") = Except.ok s2 ∧
      get_user_id_from_auth_id s2 "a" = some "u" ∧
      get_auth_id_from_user_id s2 "u" = some "a" :=
  associate_then_lookup_roundtrip ⟨[], []⟩ "a" "u" rfl rfl

/-- Claim C2: for every associated pair, after mark_user_for_deletion the
user-to-auth lookup returns absent while the auth-to-user lookup still
returns the user ID (the tombstoned auth-ID record stays readable in that
direction only). -/
theorem mark_lookup_asymmetry (s : AuthState) (a u : String)
    (ha : get_user_id_from_auth_id s a = some u)
    (hu : get_auth_id_from_user_id s u = some a) :
    get_auth_id_from_user_id (mark_user_for_deletion s u) u = none ∧
    get_user_id_from_auth_id (mark_user_for_deletion s u) a = some u := by
  constructor
  · unfold get_auth_id_from_user_id
    rw [mark_get_userAuthDetails_none]
  · obtain ⟨ra, hra, hrau⟩ : ∃ ra,
        lookupByKey UserIdentifiersModel.id s.userIdentifiers a = some ra ∧
        ra.user_id = u := by
      unfold get_user_id_from_auth_id UserIdentifiersModel.get_by_gae_id at ha
      cases hl : lookupByKey UserIdentifiersModel.id s.userIdentifiers a with
      | none => rw [hl] at ha; cases ha
      | some r =>
        simp only [hl] at ha
        exact ⟨r, rfl, Option.some.inj ha⟩
    unfold get_user_id_from_auth_id UserIdentifiersModel.get_by_gae_id
    rw [mark_userIdentifiers_eq]
    cases ht : tombstone_target s u with
    | none => simp [hra, hrau]
    | some r0 =>
      rcases tombstone_target_spec s u r0 ht with ⟨hmem, hspec⟩
      by_cases hid : r0.id = a
      · have hr0u : r0.user_id = u := by
          rcases hspec with hcase | hcase
          · exact hcase
          · rw [hid] at hcase
            rw [hra] at hcase
            injection hcase with h3
            rw [← h3]
            exact hrau
        rw [lookupByKey_putByKey_self_of UserIdentifiersModel.id s.userIdentifiers
          { r0 with deleted := true } a hid]
        simp [hr0u]
      · rw [lookupByKey_putByKey_ne UserIdentifiersModel.id s.userIdentifiers
          { r0 with deleted := true } a (fun he => hid he.symm)]
        simp [hra, hrau]

/-- Witness for C2: a concrete associated pair. -/
theorem mark_lookup_asymmetry_witness :
    get_auth_id_from_user_id (mark_user_for_deletion
        ⟨[⟨"a", "u", false⟩], [⟨"u", some "a", none, false⟩]⟩ "u") "u" = none ∧
    get_user_id_from_auth_id (mark_user_for_deletion
        ⟨[⟨"a", "u", false⟩], [⟨"u", some "a", none, false⟩]⟩ "u") "a" = some "u" :=
  mark_lookup_asymmetry ⟨[⟨"a", "u", false⟩], [⟨"u", some "a", none, false⟩]⟩
    "a" "u" rfl rfl

/-- Claim C5: associate fails with a collision error when the auth ID is
already associated — reported first, whatever the user-ID side holds — and
otherwise when the user ID is already associated; in particular
re-associating an existing pair fails. -/
theorem associate_collision_order (s : AuthState) (a u : String) :
    (∀ x, get_user_id_from_auth_id s a = some x →
      associate_auth_id_with_user_id s (a, u) =
        .error (.authIdAlready a x)) ∧
    (get_user_id_from_auth_id s a = none →
      ∀ y, get_auth_id_from_user_id s u = some y →
        associate_auth_id_with_user_id s (a, u) =
          .error (.userIdAlready u y)) := by
  constructor
  · intro x hx
    unfold associate_auth_id_with_user_id
    simp only [hx]
  · intro hnone y hy
    unfold associate_auth_id_with_user_id
    simp only [hnone, hy]

/-- Witness for C5: re-associating an already-associated pair reports the
auth-ID collision. -/
theorem associate_collision_order_witness :
    associate_auth_id_with_user_id
        ⟨[⟨"a", "u", false⟩], [⟨"u", some "a", none, false⟩]⟩ ("a", "u") =
      .error (.authIdAlready "a" "u") :=
  (associate_collision_order ⟨[⟨"a", "u", false⟩], [⟨"u", some "a", none, false⟩]⟩
    "a" "u").1 "u" rfl

/-- Claim C8: both batched lookups return one output per input, in input
order, equal to the corresponding single lookup — hence the absent marker
appears at exactly the positions whose key has no association, and absent
records never fail. -/
theorem lookup_many_pointwise (s : AuthState) (user_ids auth_ids : List String) :
    (get_multi_auth_ids_from_user_ids s user_ids).length = user_ids.length ∧
    get_multi_auth_ids_from_user_ids s user_ids =
      user_ids.map (get_auth_id_from_user_id s) ∧
    (∀ i : Nat, (get_multi_auth_ids_from_user_ids s user_ids)[i]? =
      (user_ids[i]?).map (get_auth_id_from_user_id s)) ∧
    (get_multi_user_ids_from_auth_ids s auth_ids).length = auth_ids.length ∧
    get_multi_user_ids_from_auth_ids s auth_ids =
      auth_ids.map (get_user_id_from_auth_id s) ∧
    (∀ i : Nat, (get_multi_user_ids_from_auth_ids s auth_ids)[i]? =
      (auth_ids[i]?).map (get_user_id_from_auth_id s)) := by
  refine ⟨?_, get_multi_auth_ids_eq_map s user_ids, ?_, ?_,
    get_multi_user_ids_eq_map s auth_ids, ?_⟩
  · rw [get_multi_auth_ids_eq_map]
    exact List.length_map _ _
  · intro i
    rw [get_multi_auth_ids_eq_map, List.getElem?_map]
  · rw [get_multi_user_ids_eq_map]
    exact List.length_map _ _
  · intro i
    rw [get_multi_user_ids_eq_map, List.getElem?_map]

/-- Claim C9: a successful associate over a pre-existing user-ID record
with a null cross-reference stores a freshly constructed record holding
only the user ID and auth ID; the other fields of the pre-existing record
(here `parent_user_id`) are reset to their defaults, not preserved. -/
theorem associate_resets_existing_record (s : AuthState) (a u p : String)
    (m : UserAuthDetailsModel)
    (hm : UserAuthDetailsModel.get s.userAuthDetails u = some m)
    (hnull : m.gae_id = none)
    (hp : m.parent_user_id = some p)
    (ha : get_user_id_from_auth_id s a = none) :
    ∃ s2, associate_auth_id_with_user_id s (a, u) = Except.ok s2 ∧
      lookupByKey UserAuthDetailsModel.id s2.userAuthDetails u =
        some ⟨u, some a, none, false⟩ ∧
      (⟨u, some a, none, false⟩ : UserAuthDetailsModel).parent_user_id ≠
        m.parent_user_id := by
  have hu : get_auth_id_from_user_id s u = none := by
    unfold get_auth_id_from_user_id
    rw [hm]
    exact hnull
  refine ⟨_, associate_fresh s a u ha hu, ?_, ?_⟩
  · exact lookupByKey_putByKey_self_of UserAuthDetailsModel.id s.userAuthDetails
      ⟨u, some a, none, false⟩ u rfl
  · rw [hp]
    simp

/-- Witness for C9: a concrete record with a populated `parent_user_id`
and null cross-reference. -/
theorem associate_resets_existing_record_witness :
    ∃ s2, associate_auth_id_with_user_id
        ⟨[], [⟨"u", none, some "P", false⟩]⟩ ("a", "u") = Except.ok s2 ∧
      lookupByKey UserAuthDetailsModel.id s2.userAuthDetails "u" =
        some ⟨"u", some "a", none, false⟩ ∧
      (⟨"u", some "a", none, false⟩ : UserAuthDetailsModel).parent_user_id ≠
        (⟨"u", none, some "P", false⟩ : UserAuthDetailsModel).parent_user_id :=
  associate_resets_existing_record ⟨[], [⟨"u", none, some "P", false⟩]⟩
    "a" "u" "P" ⟨"u", none, some "P", false⟩ rfl rfl rfl rfl

/-- Claim C10: when the user has no user-ID record but a live auth-ID
record cross-references the user ID, mark_user_for_deletion finds that
record through the reverse query and tombstones it, leaving the user-ID
table untouched. -/
theorem mark_reverse_query_tombstones (s : AuthState) (u : String)
    (r : UserIdentifiersModel)
    (hno : lookupByKey UserAuthDetailsModel.id s.userAuthDetails u = none)
    (hq : UserIdentifiersModel.get_by_user_id s.userIdentifiers u = some r) :
    mark_user_for_deletion s u =
      ⟨putByKey UserIdentifiersModel.id s.userIdentifiers { r with deleted := true },
       s.userAuthDetails⟩ ∧
    r.user_id = u ∧
    lookupByKey UserIdentifiersModel.id
      (mark_user_for_deletion s u).userIdentifiers r.id =
        some { r with deleted := true } := by
  have hget : UserAuthDetailsModel.get s.userAuthDetails u = none := by
    unfold UserAuthDetailsModel.get
    rw [hno]
  have hmain : mark_user_for_deletion s u =
      ⟨putByKey UserIdentifiersModel.id s.userIdentifiers { r with deleted := true },
       s.userAuthDetails⟩ := by
    apply AuthState.eq_of_parts
    · rw [mark_userIdentifiers_eq]
      have htt : tombstone_target s u = some r := by
        unfold tombstone_target
        simp only [hget]
        exact hq
      simp only [htt]
    · rw [mark_userAuthDetails_eq, hget]
  refine ⟨hmain, (UserIdentifiersModel.get_by_user_id_eq_some _ _ _ hq).2, ?_⟩
  rw [hmain]
  exact lookupByKey_putByKey_self_of UserIdentifiersModel.id s.userIdentifiers
    { r with deleted := true } r.id rfl

/-- Witness for C10: an auth-ID record referencing a user with no user-ID
record. -/
theorem mark_reverse_query_tombstones_witness :
    mark_user_for_deletion ⟨[⟨"A", "u", false⟩], []⟩ "u" =
      ⟨putByKey UserIdentifiersModel.id [⟨"A", "u", false⟩]
        { (⟨"A", "u", false⟩ : UserIdentifiersModel) with deleted := true }, []⟩ ∧
    (⟨"A", "u", false⟩ : UserIdentifiersModel).user_id = "u" ∧
    lookupByKey UserIdentifiersModel.id
      (mark_user_for_deletion ⟨[⟨"A", "u", false⟩], []⟩ "u").userIdentifiers
        (⟨"A", "u", false⟩ : UserIdentifiersModel).id =
        some { (⟨"A", "u", false⟩ : UserIdentifiersModel) with deleted := true } :=
  mark_reverse_query_tombstones ⟨[⟨"A", "u", false⟩], []⟩ "u" ⟨"A", "u", false⟩ rfl rfl

/-- Claim C7: every destroy_auth_session call appends exactly three
Set-Cookie directives — ACSID, SACSID, dev_appserver_login — each set to
the empty value with an expires attribute in the strftime cookie format
denoting one day (86400 seconds) before the call time, hence strictly in
the past; no session state is consulted. -/
theorem destroy_auth_session_three_expired (now : Nat)
    (headers : List (String × String)) (h : 86400 ≤ now) :
    destroy_auth_session now headers =
      headers ++
        [("Set-Cookie", cookie_output "ACSID" (strftimeCookieGMT (now - 86400))),
         ("Set-Cookie", cookie_output "SACSID" (strftimeCookieGMT (now - 86400))),
         ("Set-Cookie", cookie_output "dev_appserver_login"
           (strftimeCookieGMT (now - 86400)))] ∧
    (destroy_auth_session now headers).length = headers.length + 3 ∧
    now - 86400 < now := by
  refine ⟨rfl, ?_, ?_⟩
  · simp [destroy_auth_session]
  · omega

/-- Witness for C7: the call one day after the epoch. -/
theorem destroy_auth_session_three_expired_witness :
    86400 ≤ 172800 ∧
    (destroy_auth_session 172800 [] =
      [] ++
        [("Set-Cookie", cookie_output "ACSID" (strftimeCookieGMT (172800 - 86400))),
         ("Set-Cookie", cookie_output "SACSID" (strftimeCookieGMT (172800 - 86400))),
         ("Set-Cookie", cookie_output "dev_appserver_login"
           (strftimeCookieGMT (172800 - 86400)))] ∧
      (destroy_auth_session 172800 ([] : List (String × String))).length =
        ([] : List (String × String)).length + 3 ∧
      172800 - 86400 < 172800) :=
  ⟨by omega, destroy_auth_session_three_expired 172800 [] (by omega)⟩

/-- Claim C3 as stated is false at this input: the batch carries an
auth-ID-side collision on its first pair and a user-ID-side collision on
its second pair, yet the raised error lists only the auth-ID-side
collision — the user-ID collision ("U2" already mapped to "A9") is
absent from the reported list. -/
theorem associate_multi_collision_listing_counterexample :
    associate_multi_auth_ids_with_user_ids
        ⟨[⟨"A1", "U9", false⟩], [⟨"U2", some "A9", none, false⟩]⟩
        [("A1", "U1"), ("A2", "U2")] =
      .error (.multiAuthIdAlready [("A1", "U9")]) ∧
    get_auth_id_from_user_id
        ⟨[⟨"A1", "U9", false⟩], [⟨"U2", some "A9", none, false⟩]⟩ "U2" =
      some "A9" ∧
    ("U2", "A9") ∉ ([("A1", "U9")] : List (String × String)) := by
  refine ⟨rfl, rfl, by decide⟩

/-- Claim C3, amended: both collision scans read the pre-write state over
all pairs; if the auth-ID scan hits, the operation fails listing every
auth-ID-side collision, and only when that scan is clean does a user-ID
scan hit fail listing every user-ID-side collision.  Either failure
returns before any record is written. -/
theorem associate_multi_collision_report (s : AuthState)
    (pairs : List (String × String)) :
    (((get_multi_user_ids_from_auth_ids s (pairs.map Prod.fst)).any
        Option.isSome) = true →
      associate_multi_auth_ids_with_user_ids s pairs =
        .error (.multiAuthIdAlready (collision_pairs (pairs.map Prod.fst)
          (get_multi_user_ids_from_auth_ids s (pairs.map Prod.fst))))) ∧
    (((get_multi_user_ids_from_auth_ids s (pairs.map Prod.fst)).any
        Option.isSome) = false →
      ((get_multi_auth_ids_from_user_ids s (pairs.map Prod.snd)).any
        Option.isSome) = true →
      associate_multi_auth_ids_with_user_ids s pairs =
        .error (.multiUserIdAlready (collision_pairs (pairs.map Prod.snd)
          (get_multi_auth_ids_from_user_ids s (pairs.map Prod.snd))))) :=
  ⟨associate_multi_first_check s pairs, associate_multi_second_check s pairs⟩

/-- Witness for the amended C3 at a concrete colliding batch. -/
theorem associate_multi_collision_report_witness :
    associate_multi_auth_ids_with_user_ids ⟨[⟨"A1", "U9", false⟩], []⟩
        [("A1", "U1")] =
      .error (.multiAuthIdAlready (collision_pairs
        ([("A1", "U1")].map Prod.fst)
        (get_multi_user_ids_from_auth_ids ⟨[⟨"A1", "U9", false⟩], []⟩
          ([("A1", "U1")].map Prod.fst)))) :=
  (associate_multi_collision_report ⟨[⟨"A1", "U9", false⟩], []⟩ [("A1", "U1")]).1 rfl

/-- Claim C4 as stated is false at the empty batch: associate-multi
unpacks `zip(*pairs)` and raises a ValueError on zero pairs, while zero
sequential associate calls leave the state unchanged. -/
theorem associate_multi_empty_counterexample :
    associate_multi_auth_ids_with_user_ids ⟨[], []⟩ [] = .error .valueError ∧
    List.foldlM associate_auth_id_with_user_id (⟨[], []⟩ : AuthState) [] =
      Except.ok ⟨[], []⟩ :=
  ⟨rfl, rfl⟩

/-- Claim C4, amended to nonempty batches: over one or more pairs that are
mutually disjoint and collide neither with each other nor with the
existing state, the batch associate produces exactly the state of the
sequential associate calls. -/
theorem associate_multi_eq_sequential (s : AuthState)
    (pairs : List (String × String)) (hne : pairs ≠ [])
    (hA : (pairs.map Prod.fst).Nodup) (hU : (pairs.map Prod.snd).Nodup)
    (hfresh : ∀ p ∈ pairs, get_user_id_from_auth_id s p.1 = none ∧
      get_auth_id_from_user_id s p.2 = none) :
    associate_multi_auth_ids_with_user_ids s pairs =
      List.foldlM associate_auth_id_with_user_id s pairs := by
  rw [associate_multi_fresh pairs s hne hfresh,
    foldlM_associate_fresh pairs s hA hU hfresh]

/-- Witness for the amended C4 at a concrete two-pair batch over the empty
store. -/
theorem associate_multi_eq_sequential_witness :
    associate_multi_auth_ids_with_user_ids ⟨[], []⟩ [("a", "u"), ("b", "v")] =
      List.foldlM associate_auth_id_with_user_id (⟨[], []⟩ : AuthState)
        [("a", "u"), ("b", "v")] :=
  associate_multi_eq_sequential ⟨[], []⟩ [("a", "u"), ("b", "v")]
    (by decide) (by decide) (by decide) (by decide)

/-- Claim C6 as stated is false at this input: a one-sided store (a
user-ID record with null cross-reference beside a live auth-ID record
referencing the user — the residue the spec documents for a crash between
associate's two writes) makes the second deletion call tombstone the
auth-ID record the first call could not locate, a further state change. -/
theorem mark_not_idempotent_counterexample :
    mark_user_for_deletion
        (mark_user_for_deletion
          ⟨[⟨"B", "u", false⟩], [⟨"u", none, none, false⟩]⟩ "u") "u" ≠
      mark_user_for_deletion
        ⟨[⟨"B", "u", false⟩], [⟨"u", none, none, false⟩]⟩ "u" := by
  decide

/-- Claim C6, amended to well-formed stores: on a store with unique record
keys whose live auth-ID records are each backed by a live user-ID record
pointing back at them, marking a user deleted twice produces the same
state as marking once (and the embedded operation is total: no error in
either call). -/
theorem mark_user_for_deletion_idempotent (s : AuthState) (u : String)
    (hwf : WellFormed s) :
    mark_user_for_deletion (mark_user_for_deletion s u) u =
      mark_user_for_deletion s u := by
  have h1 : UserAuthDetailsModel.get
      (mark_user_for_deletion s u).userAuthDetails u = none :=
    mark_get_userAuthDetails_none s u
  have hnodup := mark_nodup_ids s u hwf.1
  have hkill := mark_kills_live_user_entries s u hwf
  apply AuthState.eq_of_parts
  · rw [mark_userIdentifiers_eq]
    have htt : tombstone_target (mark_user_for_deletion s u) u =
        UserIdentifiersModel.get_by_user_id
          (mark_user_for_deletion s u).userIdentifiers u := by
      unfold tombstone_target
      simp only [h1]
    rw [htt]
    cases hq : UserIdentifiersModel.get_by_user_id
        (mark_user_for_deletion s u).userIdentifiers u with
    | none => rfl
    | some r2 =>
      rcases UserIdentifiersModel.get_by_user_id_eq_some _ _ _ hq with ⟨hmem, huid⟩
      have hdel : r2.deleted = true := hkill r2 hmem huid
      show putByKey UserIdentifiersModel.id
          (mark_user_for_deletion s u).userIdentifiers
          { r2 with deleted := true } =
        (mark_user_for_deletion s u).userIdentifiers
      rw [tombstone_eta r2 hdel]
      exact putByKey_eq_self_of_mem _ _ _ hnodup hmem
  · rw [mark_userAuthDetails_eq, h1]

/-- Witness for the amended C6 at a concrete well-formed associated
pair. -/
theorem mark_user_for_deletion_idempotent_witness :
    WellFormed ⟨[⟨"A", "u", false⟩], [⟨"u", some "A", none, false⟩]⟩ ∧
    mark_user_for_deletion (mark_user_for_deletion
        ⟨[⟨"A", "u", false⟩], [⟨"u", some "A", none, false⟩]⟩ "u") "u" =
      mark_user_for_deletion
        ⟨[⟨"A", "u", false⟩], [⟨"u", some "A", none, false⟩]⟩ "u" := by
  have hwf : WellFormed ⟨[⟨"A", "u", false⟩], [⟨"u", some "A", none, false⟩]⟩ := by
    refine ⟨by decide, by decide, ?_⟩
    intro r hr hd
    simp only [List.mem_singleton] at hr
    subst hr
    exact ⟨⟨"u", some "A", none, false⟩, rfl, rfl, rfl⟩
  exact ⟨hwf, mark_user_for_deletion_idempotent _ "u" hwf⟩
